import Mathlib

/-!
# Verification of the repo-to-txt file-selection-and-serialization walker

This file gives a shallow embedding, in Lean 4, of the core of the
repo-to-txt tool: the path filter (shouldExcludeFile, pkg/output),
the binary sniffer (isBinary), the content reader (readFileContent),
the formatter (writeFileContent), the repository walker
(WriteRepoContentsToFile over filepath.Walk) and the file finder
(FindFiles), together with theorems settling the specification claims.

Modelling conventions:
* Go strings are embedded as lists of characters (Str); file contents as
  lists of bytes (Bytes, natural numbers).  ASCII characters serialize to
  one byte via Char.toNat; all concrete inputs used below are ASCII.
* The host is Linux: the path separator is '/', so filepath.ToSlash is
  the map replacing the separator by '/' (the identity on such paths),
  and filepath.Ext treats only '/' as a separator.
* Unicode case folding and unicode space classification are modelled on
  the ASCII/Latin-1 range, which strings.ToLower, strings.EqualFold and
  strings.TrimSpace treat exactly as embedded here.
* The filesystem is an inductive tree of files and directories.  A file
  carries a readable flag (false models os.Open or read failure) and its
  content; a directory carries a readable flag (false models a
  readDirNames failure inside filepath.Walk).  filepath.Walk visits
  directory entries in sorted order; the child list stands for that
  enumeration order.
* The buffered writer receives the formatted records one after another,
  so the bytes of the output file are the concatenation of the formatted
  records in traversal order; the walker model accumulates the records
  and outputBytes produces that concatenation.  The log produced by
  log.Printf on skipped files is modelled as a list of entries.
-/

namespace RepoToTxt

/-- Go strings, as lists of characters. -/
abbrev Str := List Char

/-- File contents, as lists of bytes. -/
abbrev Bytes := List Nat

/-- ASCII/Latin-1 serialization of a string to bytes. -/
def strBytes (s : Str) : Bytes := s.map Char.toNat

/-- The Linux path separator (filepath.Separator). -/
def pathSeparator : Char := '/'

/-- filepath.ToSlash: replace each host separator by '/'.  On Linux the
separator is already '/', so this is the identity map. -/
def filepathToSlash (p : Str) : Str :=
  p.map (fun c => if c = pathSeparator then '/' else c)

/-- unicode.IsSpace restricted to the Latin-1 range, the characters
strings.TrimSpace recognises there: space, tab, newline, vertical tab,
form feed, carriage return, next line, no-break space. -/
def isSpaceGo (c : Char) : Bool :=
  c = ' ' || c = '\t' || c = '\n' || c.toNat = 11 || c.toNat = 12 ||
    c = '\r' || c.toNat = 133 || c.toNat = 160

/-- strings.TrimSpace: drop leading and trailing white space. -/
def trimSpace (s : Str) : Str :=
  ((s.dropWhile isSpaceGo).reverse.dropWhile isSpaceGo).reverse

/-- strings.ToLower on one character, ASCII range (unicode simple case
mapping restricted to ASCII). -/
def toLowerChar (c : Char) : Char :=
  if 'A' ≤ c && c ≤ 'Z' then Char.ofNat (c.toNat + 32) else c

/-- strings.ToLower, ASCII range. -/
def strToLower (s : Str) : Str := s.map toLowerChar

/-- strings.EqualFold, ASCII range: equality after simple case folding. -/
def eqFold (a b : Str) : Bool := strToLower a == strToLower b

/-- strings.HasPrefix(name, ".") as used by both walkers to skip hidden
entries. -/
def isDotName (n : Str) : Bool := (".".toList).isPrefixOf n

/-- Loop of filepath.Ext, scanning the path from its last character
towards the front, stopping at a path separator: acc holds the
characters already scanned, in order.  Returns the suffix starting at
the final dot of the final path element, or the empty string. -/
def extLoop : List Char → List Char → List Char
  | [], _ => []
  | c :: rest, acc =>
    if c = '/' then []
    else if c = '.' then '.' :: acc
    else extLoop rest (c :: acc)

/-- filepath.Ext: the suffix beginning at the final dot in the final
element of the path; empty if there is no dot. -/
def filepathExt (p : Str) : Str := extLoop p.reverse []

/-- pkg/config: the default excluded extension (config.DefaultExcludedExt). -/
def DefaultExcludedExt : Str := ".ipynb".toList

/-- pkg/config: the parts of config.Config the walker consults. -/
structure Config where
  ExcludeFolders : List Str
  IncludeExt : List Str

/-- pkg/util: Contains checks case-insensitive (strings.EqualFold)
membership of item in slice. -/
def Contains (slice : List Str) (item : Str) : Bool :=
  slice.any (fun s => eqFold s item)

/-- One iteration of the exclusion-folder loop of shouldExcludeFile: the
configured prefix is trimmed and slash-normalized, empty prefixes are
skipped, and the normalized relative path must either start with the
prefix followed by '/' or equal the prefix. -/
def matchesExclude (relPath exclude : Str) : Bool :=
  let normalizedRelPath := filepathToSlash relPath
  let normalizedExclude := filepathToSlash (trimSpace exclude)
  normalizedExclude != [] &&
    ((normalizedExclude ++ ['/']).isPrefixOf normalizedRelPath ||
      normalizedRelPath == normalizedExclude)

/-- The exclusion-folder loop of shouldExcludeFile: some configured
prefix matches. -/
def excludedByFolder (relPath : Str) (cfg : Config) : Bool :=
  cfg.ExcludeFolders.any (fun exclude => matchesExclude relPath exclude)

/-- pkg/output: shouldExcludeFile.  Folder exclusions are checked first;
otherwise, with a non-empty include list, the lower-cased extension must
be a member (util.Contains, case-insensitive); otherwise the lower-cased
relative path is checked against the built-in default excluded suffix. -/
def shouldExcludeFile (relPath : Str) (cfg : Config) : Bool :=
  if excludedByFolder relPath cfg then true
  else if cfg.IncludeExt.length > 0 then
    !(Contains cfg.IncludeExt (strToLower (filepathExt relPath)))
  else
    DefaultExcludedExt.isSuffixOf (strToLower relPath)

/-- isBinary (pkg/output): the data contains a null byte
(bytes.IndexByte(data, 0) is not -1). -/
def isBinary (data : Bytes) : Bool := data.contains 0

/-- The two non-fatal reasons readFileContent fails: the open or read
errors out, or the sniffed prefix is binary. -/
inductive FileErr where
  | unreadable : FileErr
  | binary : FileErr
deriving DecidableEq, Repr

/-- readFileContent (pkg/output): open the file (failure when it is not
readable), read at most 512 bytes, reject the file when that prefix
contains a null byte, otherwise seek back to the start and read the
whole content.  A read error other than io.EOF also fails; both open and
read failures are collapsed into FileErr.unreadable. -/
def readFileContent (readable : Bool) (content : Bytes) : Except FileErr Bytes :=
  if !readable then .error .unreadable
  else if isBinary (content.take 512) then .error .binary
  else .ok content

/-- writeFileContent (pkg/output): the separator line produced by
fmt.Sprintf from the relative path, then the content bytes verbatim,
then two newline bytes. -/
def writeFileContent (relPath : Str) (content : Bytes) : Bytes :=
  let separator := "=== ".toList ++ relPath ++ " ===".toList ++ "\n".toList
  strBytes separator ++ content ++ strBytes "\n\n".toList

/-- A filesystem node: a file with its readability and content, or a
directory with its readability (whether readDirNames succeeds) and its
entries in enumeration order. -/
inductive FsTree where
  | file (name : Str) (readable : Bool) (content : Bytes) : FsTree
  | dir (name : Str) (readable : Bool) (children : List FsTree) : FsTree
deriving Repr

/-- The relative path of an entry called name inside the directory whose
own relative path is relDir (filepath.Rel of the joined path; the root
itself has the empty relative path). -/
def childRel (relDir name : Str) : Str :=
  if relDir.isEmpty then name else relDir ++ '/' :: name

/-- The fatal error of the bulk walker: the walk callback received a
traversal error for a path and wrapped it (error accessing path). -/
inductive WalkError where
  | accessDir (path : Str) : WalkError
deriving DecidableEq, Repr

/-- What one bulk-walker run produces: the emitted records in traversal
order and the log entries for skipped files in traversal order. -/
structure WalkOut where
  records : List (Str × Bytes)
  logs : List (Str × FileErr)
deriving DecidableEq, Repr

/-- Concatenation of two walker outputs (the second walked after the
first). -/
def WalkOut.append (a b : WalkOut) : WalkOut :=
  ⟨a.records ++ b.records, a.logs ++ b.logs⟩

/-- The file branch of the WriteRepoContentsToFile walk callback: hidden
files are skipped, then the path filter is applied, then the content
reader; a reader failure is logged with the relative path and the
traversal continues, otherwise the record is emitted. -/
def walkFile (cfg : Config) (rel name : Str) (readable : Bool)
    (content : Bytes) : WalkOut :=
  if isDotName name then ⟨[], []⟩
  else if shouldExcludeFile rel cfg then ⟨[], []⟩
  else
    match readFileContent readable content with
    | .error e => ⟨[], [(rel, e)]⟩
    | .ok c => ⟨[(rel, c)], []⟩

/-- filepath.Walk specialised to the WriteRepoContentsToFile callback,
processing the entries of the directory whose relative path is relDir.
A directory entry always makes the callback return nil (so the walk
descends even into dot-directories); if enumerating it fails, the
callback is invoked with that error and aborts the walk naming the
failing path.  File entries are handled by walkFile and never abort. -/
def walkList (cfg : Config) (relDir : Str) :
    List FsTree → Except WalkError WalkOut
  | [] => .ok ⟨[], []⟩
  | .file n readable c :: ts =>
    match walkList cfg relDir ts with
    | .error e => .error e
    | .ok r => .ok ((walkFile cfg (childRel relDir n) n readable c).append r)
  | .dir n readable cs :: ts =>
    if readable then
      match walkList cfg (childRel relDir n) cs with
      | .error e => .error e
      | .ok r₁ =>
        match walkList cfg relDir ts with
        | .error e => .error e
        | .ok r₂ => .ok (r₁.append r₂)
    else .error (.accessDir (childRel relDir n))

/-- WriteRepoContentsToFile (pkg/output): walk the repository root
(whose entries are ts); a failure enumerating the root itself aborts
with the root path (modelled as the empty relative path). -/
def WriteRepoContentsToFile (cfg : Config) (rootReadable : Bool)
    (ts : List FsTree) : Except WalkError WalkOut :=
  if rootReadable then walkList cfg [] ts else .error (.accessDir [])

/-- The bytes of the output file: the formatted records, concatenated in
traversal order (the buffered writer receives exactly these writes). -/
def outputBytes (w : WalkOut) : Bytes :=
  (w.records.map (fun r => writeFileContent r.1 r.2)).flatten

/-- The input error of FindFiles: no file names were provided. -/
inductive FindErr where
  | noFileNames : FindErr
deriving DecidableEq, Repr

/-- filepath.Walk specialised to the FindFiles callback: traversal
errors are logged and skipped (an unreadable directory's entries are
simply never enumerated), directories and hidden files produce no
matches, and every other file contributes one (requested name, path)
pair per requested name it equals case-insensitively, in request
order. -/
def findList (fileNames : List Str) (relDir : Str) :
    List FsTree → List (Str × Str)
  | [] => []
  | .file n _ _ :: ts =>
    (if isDotName n then []
     else (fileNames.filter (fun fn => eqFold n fn)).map
       (fun fn => (fn, childRel relDir n))) ++ findList fileNames relDir ts
  | .dir n readable cs :: ts =>
    (if readable then findList fileNames (childRel relDir n) cs else []) ++
      findList fileNames relDir ts

/-- FindFiles (pkg/output): an empty request set is an input error with
no mapping; otherwise the walk (whose callback never returns an error)
produces the match pairs, from which the returned map is built by
appending each pair's path under its requested-name key. -/
def FindFiles (fileNames : List Str) (rootReadable : Bool)
    (ts : List FsTree) : Except FindErr (List (Str × Str)) :=
  if fileNames.isEmpty then .error .noFileNames
  else .ok (if rootReadable then findList fileNames [] ts else [])

/-- The list of candidate files of a tree list in traversal order:
relative path, readability and content of every non-hidden file,
descending into every directory (including dot-directories, which the
walk callback does not prune). -/
def filesUnder (relDir : Str) : List FsTree → List (Str × Bool × Bytes)
  | [] => []
  | .file n readable c :: ts =>
    (if isDotName n then [] else [(childRel relDir n, readable, c)]) ++
      filesUnder relDir ts
  | .dir n _ cs :: ts =>
    filesUnder (childRel relDir n) cs ++ filesUnder relDir ts

/-- The first directory, in walk preorder, whose enumeration fails. -/
def firstBadDir (relDir : Str) : List FsTree → Option Str
  | [] => none
  | .file _ _ _ :: ts => firstBadDir relDir ts
  | .dir n readable cs :: ts =>
    if readable then
      match firstBadDir (childRel relDir n) cs with
      | some p => some p
      | none => firstBadDir relDir ts
    else some (childRel relDir n)

/-- The records the walker emits, computed from the candidate list: the
files that pass the path filter and whose content the reader returns. -/
def emittedOf (cfg : Config) (fs : List (Str × Bool × Bytes)) :
    List (Str × Bytes) :=
  fs.filterMap fun x =>
    if shouldExcludeFile x.1 cfg then none
    else
      match readFileContent x.2.1 x.2.2 with
      | .ok c => some (x.1, c)
      | .error _ => none

/-- The log entries the walker produces, computed from the candidate
list: the files that pass the path filter but whose read fails. -/
def loggedOf (cfg : Config) (fs : List (Str × Bool × Bytes)) :
    List (Str × FileErr) :=
  fs.filterMap fun x =>
    if shouldExcludeFile x.1 cfg then none
    else
      match readFileContent x.2.1 x.2.2 with
      | .ok _ => none
      | .error e => some (x.1, e)

/-! ## Supporting lemmas -/

/-- On the Linux host the separator is '/', so filepath.ToSlash changes
nothing. -/
theorem filepathToSlash_id (s : Str) : filepathToSlash s = s := by
  induction s with
  | nil => rfl
  | cons c cs ih =>
    simp only [filepathToSlash, List.map_cons] at ih ⊢
    rw [ih]
    by_cases hc : c = pathSeparator
    · subst hc; simp [pathSeparator]
    · simp [hc]

/-- emittedOf distributes over concatenation of candidate lists. -/
theorem emittedOf_append (cfg : Config) (a b : List (Str × Bool × Bytes)) :
    emittedOf cfg (a ++ b) = emittedOf cfg a ++ emittedOf cfg b := by
  simp [emittedOf, List.filterMap_append]

/-- loggedOf distributes over concatenation of candidate lists. -/
theorem loggedOf_append (cfg : Config) (a b : List (Str × Bool × Bytes)) :
    loggedOf cfg (a ++ b) = loggedOf cfg a ++ loggedOf cfg b := by
  simp [loggedOf, List.filterMap_append]

/-- The file branch of the callback produces exactly the emitted record
and log entry that the candidate-list functions predict for it. -/
theorem walkFile_eq (cfg : Config) (rel name : Str) (readable : Bool)
    (c : Bytes) :
    walkFile cfg rel name readable c =
      ⟨emittedOf cfg (if isDotName name then [] else [(rel, readable, c)]),
       loggedOf cfg (if isDotName name then [] else [(rel, readable, c)])⟩ := by
  cases hdot : isDotName name with
  | true => simp [walkFile, emittedOf, loggedOf, hdot]
  | false =>
    cases hex : shouldExcludeFile rel cfg with
    | true => simp [walkFile, emittedOf, loggedOf, hdot, hex]
    | false =>
      cases hr : readFileContent readable c with
      | error e => simp [walkFile, emittedOf, loggedOf, hdot, hex, hr]
      | ok c' => simp [walkFile, emittedOf, loggedOf, hdot, hex, hr]

/-- A successful read means the file was readable, its sniffed prefix
had no null byte, and the whole content was returned. -/
theorem readFileContent_ok (readable : Bool) (c c' : Bytes)
    (h : readFileContent readable c = .ok c') :
    readable = true ∧ isBinary (c.take 512) = false ∧ c' = c := by
  cases readable with
  | false => simp [readFileContent] at h
  | true =>
    cases hb : isBinary (c.take 512) with
    | true => simp [readFileContent, hb] at h
    | false =>
      simp [readFileContent, hb] at h
      exact ⟨rfl, rfl, h.symm⟩

/-- Master characterization of the bulk walk: it aborts with the first
directory, in preorder, whose enumeration fails, and otherwise returns
exactly the records and logs predicted from the candidate file list. -/
theorem walkList_char (cfg : Config) (relDir : Str) (ts : List FsTree) :
    walkList cfg relDir ts =
      match firstBadDir relDir ts with
      | some p => .error (.accessDir p)
      | none =>
        .ok ⟨emittedOf cfg (filesUnder relDir ts),
             loggedOf cfg (filesUnder relDir ts)⟩ := by
  match ts with
  | [] => simp [walkList, firstBadDir, filesUnder, emittedOf, loggedOf]
  | .file n readable c :: ts =>
    have ih := walkList_char cfg relDir ts
    cases h : firstBadDir relDir ts with
    | some p =>
      rw [h] at ih
      simp [walkList, firstBadDir, filesUnder, ih, h]
    | none =>
      rw [h] at ih
      simp [walkList, firstBadDir, filesUnder, ih, h, walkFile_eq,
        WalkOut.append, emittedOf_append, loggedOf_append]
  | .dir n readable cs :: ts =>
    cases readable with
    | false => simp [walkList, firstBadDir]
    | true =>
      have ih₁ := walkList_char cfg (childRel relDir n) cs
      have ih₂ := walkList_char cfg relDir ts
      cases h₁ : firstBadDir (childRel relDir n) cs with
      | some p =>
        rw [h₁] at ih₁
        simp [walkList, firstBadDir, ih₁, h₁]
      | none =>
        rw [h₁] at ih₁
        cases h₂ : firstBadDir relDir ts with
        | some p =>
          rw [h₂] at ih₂
          simp [walkList, firstBadDir, filesUnder, ih₁, ih₂, h₁, h₂]
        | none =>
          rw [h₂] at ih₂
          simp [walkList, firstBadDir, filesUnder, ih₁, ih₂, h₁, h₂,
            WalkOut.append, emittedOf_append, loggedOf_append]

/-- A successful bulk run returns exactly the predicted records and
logs. -/
theorem write_ok_char (cfg : Config) (rb : Bool) (ts : List FsTree)
    (out : WalkOut) (h : WriteRepoContentsToFile cfg rb ts = .ok out) :
    out = ⟨emittedOf cfg (filesUnder [] ts), loggedOf cfg (filesUnder [] ts)⟩ := by
  cases rb with
  | false => simp [WriteRepoContentsToFile] at h
  | true =>
    rw [WriteRepoContentsToFile, if_pos rfl, walkList_char] at h
    cases hb : firstBadDir [] ts with
    | some p => rw [hb] at h; simp at h
    | none => rw [hb] at h; simp at h; exact h.symm

/-! ## Claim theorems -/

/-- C1: the claim that dot-directories are pruned fails on the code.
The walk callback returns nil for every directory instead of
filepath.SkipDir, so filepath.Walk descends into a directory named
.git: with an empty policy, the record for .git/config is emitted even
though its relative path has a component starting with a dot. -/
theorem c1_dotdir_contents_emitted :
    WriteRepoContentsToFile ⟨[], []⟩ true
      [.dir ".git".toList true [.file "config".toList true (strBytes "x".toList)]] =
    .ok ⟨[(".git/config".toList, strBytes "x".toList)], []⟩ := by
  simp [WriteRepoContentsToFile, walkList, walkFile, childRel, isDotName,
    shouldExcludeFile, excludedByFolder, readFileContent, isBinary,
    strBytes, WalkOut.append, DefaultExcludedExt, strToLower, toLowerChar]
  decide

/-- C2: the formatter emits exactly the separator line built from the
relative path followed by a newline, then the content bytes verbatim,
then exactly two newline bytes; and on a root holding only test.go with
content "package main" plus newline, under the policy including only
.go, the whole output file is exactly the bytes of
"=== test.go ===", newline, "package main", and three newlines. -/
theorem c2_formatter_exact_bytes :
    (∀ (relPath : Str) (content : Bytes),
      writeFileContent relPath content =
        strBytes ("=== ".toList ++ relPath ++ " ===".toList) ++
          strBytes "\n".toList ++ content ++
          strBytes "\n".toList ++ strBytes "\n".toList) ∧
    (WriteRepoContentsToFile ⟨[], [".go".toList]⟩ true
      [.file "test.go".toList true (strBytes "package main\n".toList)]).map
        outputBytes =
      .ok (strBytes "=== test.go ===\npackage main\n\n\n".toList) := by
  constructor
  · intro relPath content
    simp [writeFileContent, strBytes]
  · simp [WriteRepoContentsToFile, walkList, walkFile, childRel, isDotName,
      shouldExcludeFile, excludedByFolder, readFileContent, isBinary,
      strBytes, WalkOut.append, outputBytes, writeFileContent, Contains,
      eqFold, strToLower, toLowerChar, filepathExt, extLoop, Except.map]

/-- C4: a configured exclusion prefix e (trimmed, empty ignored)
excludes a relative path p exactly when p equals the trimmed prefix or
starts with it followed by '/'; in particular "docs" matches
"docs/readme.md" but not "documents/readme.md". -/
theorem c4_exclusion_match_iff :
    ∀ (p e : Str),
      (matchesExclude p e = true ↔
        trimSpace e ≠ [] ∧
          (p = trimSpace e ∨ (trimSpace e ++ ['/']).isPrefixOf p = true)) ∧
      matchesExclude "docs/readme.md".toList "docs".toList = true ∧
      matchesExclude "documents/readme.md".toList "docs".toList = false := by
  intro p e
  refine ⟨?_, by decide, by decide⟩
  simp only [matchesExclude, filepathToSlash_id, Bool.and_eq_true,
    Bool.or_eq_true, bne_iff_ne, ne_eq, beq_iff_eq]
  tauto

/-- Witness for C4: the characterisation applied at the trimmed prefix
"docs" and the path "docs/readme.md". -/
theorem c4_exclusion_match_iff_witness :
    matchesExclude "docs/readme.md".toList " docs ".toList = true :=
  ((c4_exclusion_match_iff "docs/readme.md".toList " docs ".toList).1).mpr
    (by refine ⟨by decide, Or.inr (by decide)⟩)

/-- C5: with no exclusion folders and no include extensions, a file is
excluded exactly when its lower-cased relative path ends in the built-in
default suffix ".ipynb". -/
theorem c5_default_fallback :
    ∀ p : Str,
      shouldExcludeFile p ⟨[], []⟩ = ".ipynb".toList.isSuffixOf (strToLower p) := by
  intro p
  simp [shouldExcludeFile, excludedByFolder, DefaultExcludedExt]

/-- C3: folder-exclusion prefixes are evaluated first and on their own:
when one matches the file is excluded whatever the extension policy
says, and when none matches and the include list is non-empty the file
is excluded exactly when its lower-cased extension is not a
case-insensitive member of that list. -/
theorem c3_folder_rules_before_extension :
    ∀ (relPath : Str) (cfg : Config),
      (excludedByFolder relPath cfg = true →
        shouldExcludeFile relPath cfg = true) ∧
      (excludedByFolder relPath cfg = false → cfg.IncludeExt ≠ [] →
        (shouldExcludeFile relPath cfg = true ↔
          Contains cfg.IncludeExt (strToLower (filepathExt relPath)) = false)) := by
  intro relPath cfg
  constructor
  · intro h
    simp [shouldExcludeFile, h]
  · intro h hne
    have hlen : 0 < cfg.IncludeExt.length := List.length_pos.mpr hne
    cases hC : Contains cfg.IncludeExt (strToLower (filepathExt relPath)) with
    | true => simp [shouldExcludeFile, h, hlen, hC]
    | false => simp [shouldExcludeFile, h, hlen, hC]

/-- Witness for C3: a folder-excluded .go file stays excluded under an
allow-list containing .go, and a .py file is excluded by the allow-list
alone. -/
theorem c3_folder_rules_before_extension_witness :
    shouldExcludeFile "src/a.go".toList ⟨["src".toList], [".go".toList]⟩ = true ∧
    shouldExcludeFile "a.py".toList ⟨[], [".go".toList]⟩ = true :=
  ⟨(c3_folder_rules_before_extension "src/a.go".toList
      ⟨["src".toList], [".go".toList]⟩).1 (by decide),
   ((c3_folder_rules_before_extension "a.py".toList
      ⟨[], [".go".toList]⟩).2 (by decide) (by decide)).mpr (by decide)⟩

/-- C9: a zero-length file is classified as text and its record is the
separator line followed immediately by exactly two newline bytes, both
at the formatter and end to end through the walker. -/
theorem c9_empty_file_record :
    readFileContent true ([] : Bytes) = .ok [] ∧
    (∀ p : Str,
      writeFileContent p [] =
        strBytes ("=== ".toList ++ p ++ " ===".toList ++ "\n\n\n".toList)) ∧
    (WriteRepoContentsToFile ⟨[], []⟩ true
      [.file "empty.txt".toList true []]).map outputBytes =
      .ok (strBytes "=== empty.txt ===\n\n\n".toList) := by
  refine ⟨by simp [readFileContent, isBinary], ?_, ?_⟩
  · intro p
    simp [writeFileContent, strBytes]
  · simp [WriteRepoContentsToFile, walkList, walkFile, childRel, isDotName,
      shouldExcludeFile, excludedByFolder, readFileContent, isBinary,
      strBytes, WalkOut.append, outputBytes, writeFileContent,
      DefaultExcludedExt, strToLower, toLowerChar, Except.map]
    decide

/-- C10: with a non-empty include list containing no empty entry, a file
whose name has no extension is excluded in allow-list mode. -/
theorem c10_no_extension_excluded :
    ∀ (cfg : Config) (p : Str), cfg.IncludeExt ≠ [] →
      (∀ s ∈ cfg.IncludeExt, s ≠ []) → filepathExt p = [] →
      shouldExcludeFile p cfg = true := by
  intro cfg p hne hno hext
  have hlen : 0 < cfg.IncludeExt.length := List.length_pos.mpr hne
  have hC : Contains cfg.IncludeExt (strToLower (filepathExt p)) = false := by
    rw [hext]
    simp only [Contains, List.any_eq_false]
    intro s hs
    simp only [eqFold, strToLower, List.map_nil, beq_iff_eq,
      List.map_eq_nil_iff]
    exact hno s hs
  cases hf : excludedByFolder p cfg with
  | true => simp [shouldExcludeFile, hf]
  | false => simp [shouldExcludeFile, hf, hlen, hC]

/-- Witness for C10: Makefile is excluded when only .go files are
allow-listed. -/
theorem c10_no_extension_excluded_witness :
    shouldExcludeFile "Makefile".toList ⟨[], [".go".toList]⟩ = true :=
  c10_no_extension_excluded ⟨[], [".go".toList]⟩ "Makefile".toList
    (by decide) (by decide) (by decide)

/-- C6: a file whose up-to-512-byte prefix contains a null byte is
classified binary by the reader and never yields a record in a
successful bulk run, whatever the policy; a readable file whose prefix
has no null byte is read in full, and if it passes the filters its full
content is emitted. -/
theorem c6_binary_never_emitted :
    (∀ c : Bytes, isBinary (c.take 512) = true →
      readFileContent true c = .error .binary) ∧
    (∀ c : Bytes, isBinary (c.take 512) = false →
      readFileContent true c = .ok c) ∧
    (∀ (cfg : Config) (rb : Bool) (ts : List FsTree) (out : WalkOut)
        (p : Str) (c : Bytes),
      WriteRepoContentsToFile cfg rb ts = .ok out →
      (p, c) ∈ out.records → isBinary (c.take 512) = false) ∧
    (∀ (cfg : Config) (rb : Bool) (ts : List FsTree) (out : WalkOut)
        (p : Str) (c : Bytes),
      WriteRepoContentsToFile cfg rb ts = .ok out →
      (p, true, c) ∈ filesUnder [] ts → shouldExcludeFile p cfg = false →
      isBinary (c.take 512) = false → (p, c) ∈ out.records) := by
  refine ⟨?_, ?_, ?_, ?_⟩
  · intro c hb
    simp [readFileContent, hb]
  · intro c hb
    simp [readFileContent, hb]
  · intro cfg rb ts out p c h hmem
    rw [write_ok_char cfg rb ts out h] at hmem
    simp only [emittedOf, List.mem_filterMap] at hmem
    obtain ⟨x, _, hfx⟩ := hmem
    cases hexcl : shouldExcludeFile x.1 cfg with
    | true => simp [hexcl] at hfx
    | false =>
      cases hr : readFileContent x.2.1 x.2.2 with
      | error e => simp [hexcl, hr] at hfx
      | ok c' =>
        simp [hexcl, hr] at hfx
        obtain ⟨hbin, hcc⟩ := (readFileContent_ok _ _ _ hr).2
        rw [← hfx.2, hcc]
        exact hbin
  · intro cfg rb ts out p c h hmem hexcl hbin
    rw [write_ok_char cfg rb ts out h]
    exact List.mem_filterMap.mpr
      ⟨(p, true, c), hmem, by simp [hexcl, readFileContent, hbin]⟩

/-- Witness for C6: a null-byte file is rejected by the reader, a text
file is read in full, and in a two-file run the binary file yields no
record while the text file's record is present. -/
theorem c6_binary_never_emitted_witness :
    readFileContent true [0, 1] = .error .binary ∧
    readFileContent true (strBytes "ok".toList) = .ok (strBytes "ok".toList) ∧
    isBinary ((strBytes "ok".toList).take 512) = false ∧
    ("main.go".toList, strBytes "ok".toList) ∈
      (WalkOut.mk [("main.go".toList, strBytes "ok".toList)]
        [("bin.png".toList, FileErr.binary)]).records := by
  have hw : WriteRepoContentsToFile ⟨[], [".go".toList, ".png".toList]⟩ true
      [.file "bin.png".toList true [137, 80, 78, 71, 0],
       .file "main.go".toList true (strBytes "ok".toList)] =
      .ok ⟨[("main.go".toList, strBytes "ok".toList)],
           [("bin.png".toList, FileErr.binary)]⟩ := by
    simp [WriteRepoContentsToFile, walkList, walkFile, childRel, isDotName,
      shouldExcludeFile, excludedByFolder, readFileContent, isBinary,
      strBytes, WalkOut.append, Contains, eqFold, strToLower, toLowerChar,
      filepathExt, extLoop]
  refine ⟨c6_binary_never_emitted.1 [0, 1] (by decide),
    c6_binary_never_emitted.2.1 (strBytes "ok".toList) (by decide),
    c6_binary_never_emitted.2.2.1 ⟨[], [".go".toList, ".png".toList]⟩ true
      [.file "bin.png".toList true [137, 80, 78, 71, 0],
       .file "main.go".toList true (strBytes "ok".toList)]
      ⟨[("main.go".toList, strBytes "ok".toList)],
       [("bin.png".toList, FileErr.binary)]⟩
      "main.go".toList (strBytes "ok".toList) hw (by decide),
    c6_binary_never_emitted.2.2.2 ⟨[], [".go".toList, ".png".toList]⟩ true
      [.file "bin.png".toList true [137, 80, 78, 71, 0],
       .file "main.go".toList true (strBytes "ok".toList)]
      ⟨[("main.go".toList, strBytes "ok".toList)],
       [("bin.png".toList, FileErr.binary)]⟩
      "main.go".toList (strBytes "ok".toList) hw
      (by simp [filesUnder, childRel, isDotName, strBytes])
      (by decide) (by decide)⟩

/-- C7: in bulk mode an unreadable or binary file is recovered locally:
it is logged with its relative path and reason and yields no record,
the run stays successful when every directory enumeration succeeds, and
a failed directory enumeration aborts the whole run with an error naming
the failing path. -/
theorem c7_local_recovery_fatal_walk :
    (∀ (cfg : Config) (relDir name : Str) (readable : Bool) (c : Bytes)
        (e : FileErr),
      isDotName name = false →
      shouldExcludeFile (childRel relDir name) cfg = false →
      readFileContent readable c = .error e →
      walkFile cfg (childRel relDir name) name readable c =
        ⟨[], [(childRel relDir name, e)]⟩) ∧
    (∀ (cfg : Config) (ts : List FsTree), firstBadDir [] ts = none →
      WriteRepoContentsToFile cfg true ts =
        .ok ⟨emittedOf cfg (filesUnder [] ts), loggedOf cfg (filesUnder [] ts)⟩) ∧
    (∀ (cfg : Config) (ts : List FsTree) (p : Str),
      firstBadDir [] ts = some p →
      WriteRepoContentsToFile cfg true ts = .error (.accessDir p)) := by
  refine ⟨?_, ?_, ?_⟩
  · intro cfg relDir name readable c e h₁ h₂ h₃
    simp [walkFile, h₁, h₂, h₃]
  · intro cfg ts h
    simp [WriteRepoContentsToFile, walkList_char, h]
  · intro cfg ts p h
    simp [WriteRepoContentsToFile, walkList_char, h]

/-- Witness for C7: an unreadable file is logged and skipped, a run over
readable directories succeeds, and an unreadable directory aborts the
run naming it. -/
theorem c7_local_recovery_fatal_walk_witness :
    walkFile ⟨[], []⟩ (childRel [] "bad.md".toList) "bad.md".toList false [] =
      ⟨[], [(childRel [] "bad.md".toList, FileErr.unreadable)]⟩ ∧
    WriteRepoContentsToFile ⟨[], []⟩ true [.file "a.txt".toList true []] =
      .ok ⟨emittedOf ⟨[], []⟩ (filesUnder [] [.file "a.txt".toList true []]),
           loggedOf ⟨[], []⟩ (filesUnder [] [.file "a.txt".toList true []])⟩ ∧
    WriteRepoContentsToFile ⟨[], []⟩ true [.dir "d".toList false []] =
      .error (.accessDir "d".toList) :=
  ⟨c7_local_recovery_fatal_walk.1 ⟨[], []⟩ [] "bad.md".toList false []
      .unreadable (by decide) (by decide) rfl,
   c7_local_recovery_fatal_walk.2.1 ⟨[], []⟩ [.file "a.txt".toList true []]
      (by simp [firstBadDir]),
   c7_local_recovery_fatal_walk.2.2 ⟨[], []⟩ [.dir "d".toList false []]
      "d".toList (by simp [firstBadDir, childRel])⟩

/-- C8: the file finder fails with the input error when called with no
requested names, returning no mapping, and never fails for this reason
on a non-empty request. -/
theorem c8_findfiles_empty_request :
    (∀ (rb : Bool) (ts : List FsTree), FindFiles [] rb ts = .error .noFileNames) ∧
    (∀ (names : List Str) (rb : Bool) (ts : List FsTree), names ≠ [] →
      ∃ m, FindFiles names rb ts = .ok m) := by
  constructor
  · intro rb ts
    simp [FindFiles]
  · intro names rb ts h
    cases names with
    | nil => exact absurd rfl h
    | cons a as =>
      exact ⟨if rb then findList (a :: as) [] ts else [], by simp [FindFiles]⟩

/-- Witness for C8: an empty request errors, a one-name request over an
empty tree succeeds. -/
theorem c8_findfiles_empty_request_witness :
    FindFiles [] true [] = .error .noFileNames ∧
    ∃ m, FindFiles ["go.mod".toList] true [] = .ok m :=
  ⟨c8_findfiles_empty_request.1 true [],
   c8_findfiles_empty_request.2 ["go.mod".toList] true [] (by decide)⟩

end RepoToTxt
